import Mathlib

/-
Verification of the ansible v2 execution core against its design
specification.  The Python sources under src/v2 are shallowly embedded:
mutable dictionaries become association lists, external collaborators
(action handlers, lookup plugins, the conditional evaluator) become oracle
parameters indexed by the call counter, and the interpreter recursion-depth
limit becomes an explicit fuel argument.
-/

set_option autoImplicit false

namespace Ansible

/-- A JSON-like value as stored in an ansible result dictionary. -/
inductive RVal where
  | b (bv : Bool)
  | n (nv : Int)
  | s (sv : String)
  | list (elems : List RVal)
  | dict (entries : List (String × RVal))

/-- A result dictionary: an association list in which the earliest entry
for a key is the visible one. -/
abbrev RMap : Type := List (String × RVal)

/-- Dictionary read `m.get(k)`: the value stored under a key. -/
def rGet : RMap → String → Option RVal
  | [], _ => none
  | kv :: rest, k => if kv.1 = k then some kv.2 else rGet rest k

/-- Dictionary assignment `m[k] = v`: the new entry shadows any older one. -/
def rSet (m : RMap) (k : String) (v : RVal) : RMap := (k, v) :: m

/-- Python `k in m`. -/
def hasKey (m : RMap) (k : String) : Bool := (rGet m k).isSome

/-- Python `int(m.get(k, d))` for the integer-valued keys the executor
inspects (a boolean coerces to 0 or 1; other shapes are left at the
default, the sources only ever store integers under these keys). -/
def rGetIntD (m : RMap) (k : String) (d : Int) : Int :=
  match rGet m k with
  | some (.n v) => v
  | some (.b true) => 1
  | some (.b false) => 0
  | _ => d

/-- Python `result.get("rc", 0) == 0` (a missing key defaults to 0; a
boolean equals an int in Python, other value shapes do not). -/
def rcIsZero (m : RMap) : Bool :=
  match rGet m "rc" with
  | none => true
  | some (.n v) => v == 0
  | some (.b bv) => !bv
  | some _ => false

/-
TaskExecutor (src/v2/ansible/executor/task_executor.py)
-/

/-- The fields of a task consulted by `TaskExecutor._execute`.  The
conditions (`until`, `changed_when`, `failed_when`) are expressions whose
evaluation is delegated to the external conditional evaluator, so only
their presence is recorded here; their per-attempt verdicts are oracles. -/
structure TaskCfg where
  retries : Int
  delay : Int
  asyncSecs : Int
  pollSecs : Int
  hasUntil : Bool
  hasChangedWhen : Bool
  hasFailedWhen : Bool

/-- External collaborators of one `_execute` invocation, indexed by the
attempt counter: the action handler result, the parsed async payload
(`json.loads` of the handler stdout), the `_poll_async_result` outcome, and
the conditional evaluator verdicts against the register-augmented scope. -/
structure ExecOracles where
  handler : Nat → RMap
  asyncPayload : Nat → Except String RMap
  pollOutcome : Nat → RMap
  untilEval : Nat → Bool
  changedWhenEval : Nat → Bool
  failedWhenEval : Nat → Bool

/-- The retry loop of `TaskExecutor._execute` (task_executor.py lines
207-260).  `remaining` counts loop iterations still allowed (the Python
loop is `for attempt in range(retries)`), `attempt` is the loop variable
and `prev` the `result` binding carried between attempts.  Returns the
final `result` together with the number of handler invocations.

The write `result["attempts"] = attempt + 1` at the top of a retry targets
the dictionary produced by the previous attempt; that dictionary is
superseded by the `result = self._handler.run(...)` rebinding directly
below it, so the written value is unreachable from the returned result
(assuming the handler returns a fresh dictionary per call).  The binding
`staleAttempts` mirrors that dead store.  `time.sleep(delay)` between
attempts has no observable effect on the result and is omitted. -/
def execLoop (t : TaskCfg) (o : ExecOracles) : Nat → Nat → Option RMap → RMap × Nat
  | 0, attempt, prev => (prev.getD [], attempt)
  | remaining + 1, attempt, prev =>
    let staleAttempts : Option RMap :=
      if attempt > 0 then prev.map (fun r => rSet r "attempts" (.n (attempt + 1))) else prev
    let _ := staleAttempts
    let handlerRes := o.handler attempt
    let afterAsync : Except String RMap :=
      if t.asyncSecs > 0 then
        match o.asyncPayload attempt with
        | .error e => .error e
        | .ok parsed => .ok (if t.pollSecs > 0 then o.pollOutcome attempt else parsed)
      else .ok handlerRes
    match afterAsync with
    | .error e =>
      ([("failed", .b true), ("msg", .s ("The async task did not return valid JSON: " ++ e))],
       attempt + 1)
    | .ok result =>
      if t.hasUntil then
        if o.untilEval attempt then (result, attempt + 1)
        else execLoop t o remaining (attempt + 1) (some result)
      else if (t.hasChangedWhen || t.hasFailedWhen) && !(hasKey result "skipped") then
        let r1 := if t.hasChangedWhen then rSet result "changed" (.b (o.changedWhenEval attempt))
                  else result
        if t.hasFailedWhen then
          let fw := o.failedWhenEval attempt
          let r2 := rSet (rSet r1 "failed_when_result" (.b fw)) "failed" (.b fw)
          if fw then (r2, attempt + 1)
          else execLoop t o remaining (attempt + 1) (some r2)
        else execLoop t o remaining (attempt + 1) (some r1)
      else if !(hasKey result "failed") && rcIsZero result then (result, attempt + 1)
      else execLoop t o remaining (attempt + 1) (some result)

/-- `TaskExecutor._execute` (task_executor.py lines 160-260) from the
conditional gate onwards: a false conditional returns the skip result with
no handler call; otherwise the retry count is clamped to a minimum of 1 and
the attempt loop runs.  Argument post-validation and omit-token filtering
only rewrite the task arguments, which do not appear in this result model.
Returns the result and the number of handler invocations. -/
def taskExecute (condPassed : Bool) (t : TaskCfg) (o : ExecOracles) : RMap × Nat :=
  if !condPassed then
    ([("changed", .b false), ("skipped", .b true), ("skip_reason", .s "Conditional check failed")], 0)
  else
    let retries := if t.retries ≤ 0 then 1 else t.retries
    execLoop t o retries.toNat 0 none

/-- The two shapes a value returned by `TaskExecutor.run` can take: the
success path returns `json.dumps(res)`, a string determined by the result
dictionary, while the error path returns the dictionary itself. -/
inductive RunRet where
  | jsonStr (res : RMap)
  | map (res : RMap)

/-- Python `if "changed" not in res: res["changed"] = False`
(task_executor.py lines 83-84). -/
def ensureChanged (res : RMap) : RMap :=
  if hasKey res "changed" then res else rSet res "changed" (.b false)

/-- `TaskExecutor.run` (task_executor.py lines 54-91).  Its callees are
oracle parameters mirroring the call structure: `itemsRes` is the outcome
of `_get_loop_items` (which may raise an AnsibleError, modelled as
`.error msg`), `loopRes` the outcome of `_run_loop` on the items, and
`execRes` the outcome of `_execute`.  Any AnsibleError raised inside the
body is converted into a failed result dictionary; a successful body is
serialized by `json.dumps`. -/
def taskRun (itemsRes : Except String (Option (List RVal)))
    (loopRes : List RVal → Except String (List RMap))
    (execRes : Except String RMap) : RunRet :=
  let body : Except String RMap :=
    match itemsRes with
    | .error e => .error e
    | .ok items =>
      match items with
      | some its =>
        if its.length > 0 then
          match loopRes its with
          | .error e => .error e
          | .ok itemResults => .ok [("results", RVal.list (itemResults.map RVal.dict))]
        else
          .ok [("changed", .b false), ("skipped", .b true),
               ("skipped_reason", .s "No items in the list"), ("results", .list [])]
      | none => execRes
  match body with
  | .error e => .map [("failed", .b true), ("msg", .s e)]
  | .ok res => .jsonStr (ensureChanged res)

/-- The break condition of the status-check loop in
`TaskExecutor._poll_async_result` (task_executor.py line 294). -/
def breakStatus (r : RMap) : Bool :=
  rGetIntD r "finished" 0 == 1 || hasKey r "failed" || hasKey r "skipped"

/-- The status-check loop of `TaskExecutor._poll_async_result`
(task_executor.py lines 289-297): while time remains, sleep for the poll
interval, fetch a status (`statuses i` is the i-th status-check result),
break on `finished=1` or a failed/skip marker, otherwise consume `poll`
seconds of the budget.  Returns the last fetched status, or `none` when the
loop body never ran (in Python the local `async_result` would then be
unbound).  `_execute` only reaches this code with a positive poll interval
(line 227), recorded as the hypothesis `hp`. -/
def pollLoop (statuses : Nat → RMap) (poll : Nat) (hp : 0 < poll) (tl : Nat) (i : Nat) :
    Option RMap :=
  if h : 0 < tl then
    let r := statuses i
    if breakStatus r then some r
    else
      match pollLoop statuses poll hp (tl - poll) (i + 1) with
      | some r2 => some r2
      | none => some r
  else none
termination_by tl
decreasing_by exact Nat.sub_lt h hp

/-- `TaskExecutor._poll_async_result` (task_executor.py lines 262-302).
The async-status pseudo-task and its normal action handler are external;
the sequence of status-check results is the oracle `statuses`.  No job id
in the submission result fails immediately; otherwise the loop runs and the
last status is returned verbatim exactly when it reports `finished=1`,
every other exit producing the timeout failure.  The `none` outcome models
the unbound-variable crash Python would hit when the async budget is not
positive. -/
def pollAsyncResult (initial : RMap) (asyncBudget poll : Nat) (hp : 0 < poll)
    (statuses : Nat → RMap) : Option RMap :=
  if (rGet initial "ansible_job_id").isNone then
    some [("failed", .b true), ("msg", .s "No job id was returned by the async task")]
  else
    match pollLoop statuses poll hp asyncBudget 0 with
    | none => none
    | some last =>
      if rGetIntD last "finished" 0 == 1 then some last
      else some [("failed", .b true),
                 ("msg", .s "async task did not complete within the requested time")]

/-- String content of an item for the `",".join` squash.  The source only
squashes package-name items, which are strings; joining a non-string raises
a TypeError in Python and is outside this model. -/
def strOfRVal : RVal → String
  | .s sv => sv
  | _ => ""

/-- `TaskExecutor._squash_items` (task_executor.py lines 144-158): for the
fixed package-manager action set and a non-empty item list, keep the items
whose per-item conditional passes (`guard` is the external evaluator
applied with `item` bound to the item) and replace the whole list by their
single comma-joined pseudo-item; any other action keeps the items as-is. -/
def squashItems (action : String) (guard : RVal → Bool) (items : List RVal) : List RVal :=
  if items.length > 0 ∧ action ∈ ["apt", "yum", "pkgng", "zypper"] then
    [RVal.s (String.intercalate "," ((items.filter guard).map strOfRVal))]
  else items

/-- The per-item loop of `TaskExecutor._run_loop` (task_executor.py lines
120-140), with `i` the position of the current item: a failing
`self._task.copy()` (`copyErr i = some msg`, the caught AnsibleParserError)
contributes a bare failed sub-result and the loop continues with the next
item; otherwise the `_execute` outcome for that item (`execOut i`) is
recorded with the literal item value stored under `item`. -/
def runLoopGo (copyErr : Nat → Option String) (execOut : Nat → RMap) :
    Nat → List RVal → List RMap
  | _, [] => []
  | i, item :: rest =>
    match copyErr i with
    | some e => [("failed", .b true), ("msg", .s e)] :: runLoopGo copyErr execOut (i + 1) rest
    | none => rSet (execOut i) "item" item :: runLoopGo copyErr execOut (i + 1) rest

/-- `TaskExecutor._run_loop` (task_executor.py lines 106-142): squash the
items, then run the per-item loop from position 0. -/
def runLoop (action : String) (guard : RVal → Bool) (copyErr : Nat → Option String)
    (execOut : Nat → RMap) (items : List RVal) : List RMap :=
  runLoopGo copyErr execOut 0 (squashItems action guard items)

/-
Play / Role / Block compilation (src/v2/ansible/playbook/play.py,
src/v2/ansible/playbook/role/__init__.py, src/v2/ansible/playbook/block.py)
-/

/-- A compiled task: its identity, the dependency chain stamped on it by
role compilation, and whether it is a copy produced for such stamping
(modelling the fresh object returned by `dep_task.copy()`). -/
structure PTask where
  tid : Nat
  dep_chain : List Nat
  is_copy : Bool

/-- A block: the primary branch plus the rescue/always branches, which
`Block.compile` leaves to the executor failure path. -/
structure PBlock where
  block : List PTask
  rescue : List PTask
  always : List PTask

/-- Modelled from the spec: `Task.compile` (ansible/playbook/task.py is not
under src).  Spec 4.2: compiling a block expands to the primary-branch task
list, so a plain task contributes itself as one task-equivalent. -/
def PTask.compile (t : PTask) : List PTask := [t]

/-- `Block.compile` (block.py lines 130-140): the primary branch only, each
member expanded through its own compile. -/
def PBlock.compile (b : PBlock) : List PTask := b.block.flatMap PTask.compile

/-- Modelled from the spec: `compile_block_list`
(ansible/playbook/helpers.py is not under src).  Spec 4.2: a block list
compiles to the concatenation of its blocks compiled in order. -/
def compile_block_list (blocks : List PBlock) : List PTask := blocks.flatMap PBlock.compile

/-- A role as seen by compilation and variable resolution: name, direct
dependency roles, parent back-references, declared task blocks, and the
three variable mappings (defaults, role vars, inclusion params).  Variable
values are scalars here, which is all the claims exercise. -/
inductive PRole where
  | mk (rname : Nat) (deps : List PRole) (parents : List PRole)
       (task_blocks : List PBlock)
       (default_vars : List (Nat × Nat)) (role_vars : List (Nat × Nat))
       (role_params : List (Nat × Nat))

def PRole.rnameOf : PRole → Nat
  | .mk n _ _ _ _ _ _ => n

def PRole.depsOf : PRole → List PRole
  | .mk _ d _ _ _ _ _ => d

def PRole.parentsOf : PRole → List PRole
  | .mk _ _ p _ _ _ _ => p

def PRole.blocksOf : PRole → List PBlock
  | .mk _ _ _ b _ _ _ => b

def PRole.defaultVarsOf : PRole → List (Nat × Nat)
  | .mk _ _ _ _ dv _ _ => dv

def PRole.roleVarsOf : PRole → List (Nat × Nat)
  | .mk _ _ _ _ _ rv _ => rv

def PRole.paramsOf : PRole → List (Nat × Nat)
  | .mk _ _ _ _ _ _ rp => rp

/-- `Role.get_direct_dependencies` (role/__init__.py lines 243-244). -/
def PRole.get_direct_dependencies (r : PRole) : List PRole := r.depsOf

/-- The copy-and-stamp step of `Role.compile` (role/__init__.py lines
296-299): `new_dep_task = dep_task.copy(); new_dep_task._dep_chain =
new_dep_chain`. -/
def stampCopy (t : PTask) (chain : List Nat) : PTask :=
  { t with dep_chain := chain, is_copy := true }

mutual

/-- `Role.compile` (role/__init__.py lines 275-304): extend the incoming
dependency chain with this role, compile each direct dependency with the
extended chain, copy and stamp every task so produced, then append this
own task blocks of the role uncopied and unstamped. -/
def PRole.compile : PRole → List Nat → List PTask
  | .mk rname deps _ task_blocks _ _ _, dep_chain =>
    let new_dep_chain := dep_chain ++ [rname]
    PRole.compileDeps deps new_dep_chain ++ compile_block_list task_blocks

/-- The dependency loop inside `Role.compile` (role/__init__.py lines
291-300). -/
def PRole.compileDeps : List PRole → List Nat → List PTask
  | [], _ => []
  | d :: ds, new_dep_chain =>
    ((PRole.compile d new_dep_chain).map (fun t => stampCopy t new_dep_chain))
      ++ PRole.compileDeps ds new_dep_chain

end

mutual

/-- `Role.get_all_dependencies` (role/__init__.py lines 246-259): all
transitive dependencies, each direct dependency preceded by its own
transitive dependencies. -/
def PRole.get_all_dependencies : PRole → List PRole
  | .mk _ deps _ _ _ _ _ => PRole.allDepsOf deps

/-- The loop of `Role.get_all_dependencies` over the direct dependencies. -/
def PRole.allDepsOf : List PRole → List PRole
  | [] => []
  | d :: ds => (PRole.get_all_dependencies d ++ [d]) ++ PRole.allDepsOf ds

end

/-- A variable mapping: an association list of scalar bindings in which the
earliest entry for a key is the visible one. -/
abbrev VMap : Type := List (Nat × Nat)

/-- Read a variable from a mapping. -/
def vlookup : VMap → Nat → Option Nat
  | [], _ => none
  | kv :: rest, k => if kv.1 = k then some kv.2 else vlookup rest k

/-- Modelled from the spec: `combine_vars` (ansible/utils/vars.py is not
under src).  Spec 4.1: a shallow merge in which the right-hand,
higher-precedence side wins on every key collision (the recursive case
only concerns nested mappings, absent from this scalar model).  On
association lists with earliest-entry precedence this places the right
operand first. -/
def combine_vars (a b : VMap) : VMap := b ++ a

/-- Every member of a list of roles is smaller than the list (used for the
termination of the recursions below, which walk lists of roles that are
not direct subterms). -/
theorem sizeOf_lt_of_mem_prole {x : PRole} : ∀ {l : List PRole}, x ∈ l → sizeOf x < sizeOf l := by
  intro l hx
  induction l with
  | nil => cases hx
  | cons a as ih =>
    rcases List.mem_cons.mp hx with h | h
    · subst h; simp; omega
    · have := ih h; simp; omega

/-- Every role reached by `get_all_dependencies` is smaller than the list
of direct dependencies it came from. -/
theorem sizeOf_lt_of_mem_allDepsOf :
    ∀ (fuel : Nat) (ds : List PRole), sizeOf ds ≤ fuel →
      ∀ x ∈ PRole.allDepsOf ds, sizeOf x < sizeOf ds := by
  intro fuel
  induction fuel with
  | zero =>
    intro ds hds x hx
    cases ds with
    | nil => simp [PRole.allDepsOf] at hx
    | cons d rest => simp at hds
  | succ f ih =>
    intro ds hds x hx
    cases ds with
    | nil => simp [PRole.allDepsOf] at hx
    | cons d rest =>
      simp only [PRole.allDepsOf, List.append_assoc, List.mem_append, List.mem_singleton] at hx
      rcases hx with hx | hx | hx
      · cases d with
        | mk n deps parents blocks dv rv rp =>
          simp only [PRole.get_all_dependencies] at hx
          have hle : sizeOf deps ≤ f := by simp at hds ⊢; omega
          have := ih deps hle x hx
          simp at hds ⊢
          omega
      · subst hx; simp; omega
      · have hle : sizeOf rest ≤ f := by simp at hds ⊢; omega
        have := ih rest hle x hx
        simp; omega

/-- Every transitive dependency of a role is smaller than the role. -/
theorem sizeOf_lt_of_mem_all_dependencies {x r : PRole}
    (h : x ∈ PRole.get_all_dependencies r) : sizeOf x < sizeOf r := by
  cases r with
  | mk n deps parents blocks dv rv rp =>
    simp only [PRole.get_all_dependencies] at h
    have := sizeOf_lt_of_mem_allDepsOf (sizeOf deps) deps (Nat.le_refl _) x h
    simp
    omega

/-- `Role.get_default_vars` (role/__init__.py lines 216-222): fold the
defaults of all transitive dependencies, in dependency order, under this
own defaults of this role. -/
def PRole.get_default_vars (r : PRole) : VMap :=
  combine_vars
    (((PRole.get_all_dependencies r).attach).foldl
      (fun acc dp => combine_vars acc (PRole.get_default_vars dp.1)) [])
    r.defaultVarsOf
termination_by sizeOf r
decreasing_by exact sizeOf_lt_of_mem_all_dependencies dp.2

/-- `Role.get_inherited_vars` (role/__init__.py lines 224-230): for each
parent, in order, fold in the inherited scope of that parent, then its
declared variables, then its inclusion parameters. -/
def PRole.get_inherited_vars (r : PRole) : VMap :=
  (r.parentsOf.attach).foldl
    (fun acc pp =>
      combine_vars (combine_vars (combine_vars acc (PRole.get_inherited_vars pp.1))
        pp.1.roleVarsOf) pp.1.paramsOf) []
termination_by sizeOf r
decreasing_by
  have h1 : sizeOf pp.1 < sizeOf r.parentsOf := sizeOf_lt_of_mem_prole pp.2
  have h2 : sizeOf r.parentsOf < sizeOf r := by
    cases r with
    | mk n deps parents blocks dv rv rp => simp [PRole.parentsOf]; omega
  omega

/-- `Role.get_vars` (role/__init__.py lines 232-241): start from the
inherited scope, fold in the full scope of every transitive dependency in
dependency order, then the declared variables of this role, then its inclusion
parameters. -/
def PRole.get_vars (r : PRole) : VMap :=
  combine_vars
    (combine_vars
      (((PRole.get_all_dependencies r).attach).foldl
        (fun acc dp => combine_vars acc (PRole.get_vars dp.1)) (PRole.get_inherited_vars r))
      r.roleVarsOf)
    r.paramsOf
termination_by sizeOf r
decreasing_by exact sizeOf_lt_of_mem_all_dependencies dp.2

/-- Modelled from the spec: the caller-side resolution of the effective
effective scope (the variable manager is not under src).  Spec 4.1 orders
the accumulated defaults below everything `Role.get_vars` produces. -/
def resolvedVars (r : PRole) : VMap :=
  combine_vars (PRole.get_default_vars r) (PRole.get_vars r)

/-- A play: host pattern and policy flags are omitted, only the four block
lists and the role list take part in compilation. -/
structure Play where
  pre_tasks : List PBlock
  roles : List PRole
  tasks : List PBlock
  post_tasks : List PBlock

/-- The role loop of `Play._compile_roles` (play.py lines 203-205); each
role is compiled with the default empty dependency chain. -/
def Play.compileRolesGo : List PRole → List PTask
  | [] => []
  | r :: rs => PRole.compile r [] ++ Play.compileRolesGo rs

/-- `Play._compile_roles` (play.py lines 192-207). -/
def Play.compileRoles (p : Play) : List PTask :=
  if p.roles.length > 0 then Play.compileRolesGo p.roles else []

/-- `Play.compile` (play.py lines 209-223): pre-task blocks, then roles,
then task blocks, then post-task blocks. -/
def Play.compile (p : Play) : List PTask :=
  compile_block_list p.pre_tasks ++ Play.compileRoles p
    ++ compile_block_list p.tasks ++ compile_block_list p.post_tasks

/-
Role loading and the role cache (src/v2/ansible/playbook/role/__init__.py,
Role.load / _load_role_data / _load_dependencies and ROLE_CACHE)
-/

/-- A loaded role object: its name, the inclusion parameters it was loaded
with, its recorded parent edges and the ids of its loaded dependencies.
Role objects live in an arena (`LoadState.store`) and are referred to by
index, so Python object identity is index equality. -/
structure RoleObj where
  rname : Nat
  rparams : List (Nat × Nat)
  rparents : List Nat
  rdeps : List Nat

/-- The process state of role loading: the arena of constructed role
objects and `ROLE_CACHE`, an association list keyed by role name plus the
frozen parameter set, with the earliest entry for a key visible (a later
Python dict assignment is modelled by prepending a shadowing entry). -/
structure LoadState where
  store : List RoleObj
  cache : List (Nat × List (Nat × Nat) × Nat)

/-- The two kinds of exception `Role.load` distinguishes: the interpreter
RuntimeError raised when the recursion limit is exhausted, and
AnsibleError. -/
inductive PyErr where
  | runtime
  | ansible (msg : String)

/-- The message of the AnsibleError raised by `Role.load` when it catches
the RuntimeError of a dependency recursion loop (role/__init__.py line
106). -/
def recursionLoopMsg : String :=
  "A recursion loop was detected with the roles specified. Make sure child roles do not have dependencies on parent roles"

/-- `ROLE_CACHE` lookup (role/__init__.py lines 87-93): the entry whose
name and frozen parameter set both match. -/
def cacheFind : List (Nat × List (Nat × Nat) × Nat) → Nat → List (Nat × Nat) → Option Nat
  | [], _, _ => none
  | e :: rest, name, params =>
    if e.1 = name ∧ e.2.1 = params then some e.2.2 else cacheFind rest name params

/-- Cache lookup on a load state. -/
def cacheLookup (st : LoadState) (name : Nat) (params : List (Nat × Nat)) : Option Nat :=
  cacheFind st.cache name params

/-- Replace the arena entry at an index. -/
def modifyAt : List RoleObj → Nat → (RoleObj → RoleObj) → List RoleObj
  | [], _, _ => []
  | x :: xs, 0, f => f x :: xs
  | x :: xs, i + 1, f => x :: modifyAt xs i f

/-- `Role.add_parent` (role/__init__.py lines 206-211) applied to the role
object at `rid`: record the parent edge unless already present. -/
def addParent (st : LoadState) (rid : Nat) (p : Nat) : LoadState :=
  { st with
    store := modifyAt st.store rid
      (fun r => if p ∈ r.rparents then r else { r with rparents := r.rparents ++ [p] }) }

/-- Record the loaded dependency ids on the role object at `rid`
(`self._dependencies = self._load_dependencies()`, role/__init__.py line
138). -/
def setRoleDeps (st : LoadState) (rid : Nat) (ds : List Nat) : LoadState :=
  { st with store := modifyAt st.store rid (fun r => { r with rdeps := ds }) }

/-- The dependency declarations of each role name, as read from its
metadata: a list of role includes, each a dependency role name with the
parameters of the include (`self._metadata.dependencies`). -/
abbrev RoleGraph : Type := Nat → List (Nat × List (Nat × Nat))

/-- `r = Role(); r._load_role_data(...)` up to dependency loading: a fresh
role object is appended to the arena, already carrying the parent edge when
a parent role was supplied (role/__init__.py lines 95-96 and 115-116). -/
def allocRole (st : LoadState) (name : Nat) (params : List (Nat × Nat))
    (parent : Option Nat) : LoadState :=
  { st with
    store := st.store ++
      [{ rname := name, rparams := params,
         rparents := (match parent with | some p => [p] | none => []),
         rdeps := [] }] }

/-- `ROLE_CACHE[role_include.role][hashed_params] = r` (role/__init__.py
lines 98-101): the registration shadows any earlier entry for the key. -/
def registerRole (st : LoadState) (name : Nat) (params : List (Nat × Nat))
    (rid : Nat) : LoadState :=
  { st with cache := (name, params, rid) :: st.cache }

/-- The dependency loop of `Role._load_dependencies` (role/__init__.py
lines 189-201), parameterized by the `Role.load` of the current recursion
budget: each include is loaded with the owning role as parent, collecting
the loaded ids left to right and propagating any exception. -/
def loadDepsWith
    (load : LoadState → Nat → List (Nat × Nat) → Option Nat → Except PyErr (Nat × LoadState)) :
    LoadState → List (Nat × List (Nat × Nat)) → Nat → Except PyErr (List Nat × LoadState)
  | st, [], _ => .ok ([], st)
  | st, inc :: rest, owner =>
    match load st inc.1 inc.2 (some owner) with
    | .error e => .error e
    | .ok (rid, st1) =>
      match loadDepsWith load st1 rest owner with
      | .error e => .error e
      | .ok (rids, st2) => .ok (rid :: rids, st2)

/-- `Role.load` (role/__init__.py lines 78-106).  `fuel` is the remaining
interpreter recursion depth: entering the function with no fuel left is the
RuntimeError Python raises at the recursion limit.  The body checks the
cache (a hit records the new parent edge and returns the cached object),
otherwise constructs a fresh role object, loads its dependencies with one
less level of recursion budget, registers the object in the cache and
returns it.  The try/except around the body converts a RuntimeError into
the AnsibleError naming the recursion loop; an AnsibleError from a nested
load passes through unchanged.  File-system content other than the
dependency metadata (task blocks, vars files) does not affect the cache
behaviour and is not carried by `RoleObj`. -/
def roleLoad (g : RoleGraph) : Nat → LoadState → Nat → List (Nat × Nat) → Option Nat →
    Except PyErr (Nat × LoadState)
  | 0, _, _, _, _ => .error .runtime
  | fuel + 1, st, name, params, parent =>
    let body : Except PyErr (Nat × LoadState) :=
      match cacheLookup st name params with
      | some rid =>
        .ok (rid, match parent with
                  | some p => addParent st rid p
                  | none => st)
      | none =>
        let rid := st.store.length
        let st1 := allocRole st name params parent
        match loadDepsWith (roleLoad g fuel) st1 (g name) rid with
        | .error e => .error e
        | .ok (depIds, st2) =>
          .ok (rid, registerRole (setRoleDeps st2 rid depIds) name params rid)
    match body with
    | .error .runtime => .error (.ansible recursionLoopMsg)
    | .error (.ansible m) => .error (.ansible m)
    | .ok v => .ok v

/-- The two-role dependency cycle used as a concrete instance of the cycle
policy: role 0 declares a dependency on role 1 and role 1 on role 0, both
with empty parameter sets. -/
def cycleGraph : RoleGraph :=
  fun n => if n = 0 then [(1, [])] else if n = 1 then [(0, [])] else []

/-- A role name reaches the set `S` along dependency-include edges: it is a
member of `S`, or one of its declared includes reaches `S`.  Instantiating
`S` with the member set of an include cycle, this captures a role that
depends, directly or transitively, on a role inside that cycle. -/
inductive ReachesCycle (g : RoleGraph) (S : List Nat) : Nat → Prop where
  | base (n : Nat) : n ∈ S → ReachesCycle g S n
  | step (n : Nat) (inc : Nat × List (Nat × Nat)) : inc ∈ g n →
      ReachesCycle g S inc.1 → ReachesCycle g S n

/-
Helper lemmas
-/

theorem vlookup_append (a b : VMap) (k : Nat) :
    vlookup (a ++ b) k =
      (match vlookup a k with
       | some v => some v
       | none => vlookup b k) := by
  induction a with
  | nil => simp [vlookup]
  | cons kv rest ih =>
    by_cases h : kv.1 = k
    · simp [vlookup, h]
    · simp [vlookup, h, ih]

theorem stampCopy_stampCopy (t : PTask) (c1 c2 : List Nat) :
    stampCopy (stampCopy t c1) c2 = stampCopy t c2 := rfl

theorem pblock_compile_eq (b : PBlock) : PBlock.compile b = b.block := by
  show b.block.flatMap PTask.compile = b.block
  induction b.block with
  | nil => rfl
  | cons t ts ih => simp [List.flatMap_cons, PTask.compile, ih]

theorem compile_block_list_length (bs : List PBlock) :
    (compile_block_list bs).length = (bs.map (fun b => b.block.length)).sum := by
  unfold compile_block_list
  rw [List.length_flatMap]
  congr 1
  apply List.map_congr_left
  intro b _
  simp [Function.comp, pblock_compile_eq]

theorem prole_compile_no_deps (r : PRole) (h : r.depsOf = []) :
    PRole.compile r [] = compile_block_list r.blocksOf := by
  cases r with
  | mk n deps parents blocks dv rv rp =>
    simp only [PRole.depsOf] at h
    subst h
    simp [PRole.compile, PRole.compileDeps, PRole.blocksOf]

theorem compileRolesGo_no_deps :
    ∀ (rs : List PRole), (∀ r ∈ rs, r.depsOf = []) →
      Play.compileRolesGo rs = rs.flatMap (fun r => compile_block_list r.blocksOf) := by
  intro rs h
  induction rs with
  | nil => simp [Play.compileRolesGo]
  | cons r rest ih =>
    simp only [Play.compileRolesGo, List.flatMap_cons]
    rw [prole_compile_no_deps r (h r (by simp)), ih (fun x hx => h x (by simp [hx]))]

/-
Claim theorems
-/

/-- C1: a task with retries=3, delay=0 and a handler failing on every
attempt runs the handler exactly 3 times and ends failed, but the final
result carries no `attempts` key: the `result["attempts"] = attempt + 1`
write lands on the dictionary of the previous attempt, which the handler
rebinding on the next line discards, so the promised `attempts=3`
never reaches the returned result. -/
theorem c1_retry_attempts_code_bug :
    (Ansible.taskExecute true
        { retries := 3, delay := 0, asyncSecs := 0, pollSecs := 0,
          hasUntil := false, hasChangedWhen := false, hasFailedWhen := false }
        { handler := fun _ => [("failed", .b true)],
          asyncPayload := fun _ => .ok [], pollOutcome := fun _ => [],
          untilEval := fun _ => false, changedWhenEval := fun _ => false,
          failedWhenEval := fun _ => false }).2 = 3 ∧
    rGet (Ansible.taskExecute true
        { retries := 3, delay := 0, asyncSecs := 0, pollSecs := 0,
          hasUntil := false, hasChangedWhen := false, hasFailedWhen := false }
        { handler := fun _ => [("failed", .b true)],
          asyncPayload := fun _ => .ok [], pollOutcome := fun _ => [],
          untilEval := fun _ => false, changedWhenEval := fun _ => false,
          failedWhenEval := fun _ => false }).1 "failed" = some (.b true) ∧
    rGet (Ansible.taskExecute true
        { retries := 3, delay := 0, asyncSecs := 0, pollSecs := 0,
          hasUntil := false, hasChangedWhen := false, hasFailedWhen := false }
        { handler := fun _ => [("failed", .b true)],
          asyncPayload := fun _ => .ok [], pollOutcome := fun _ => [],
          untilEval := fun _ => false, changedWhenEval := fun _ => false,
          failedWhenEval := fun _ => false }).1 "attempts" = none :=
  ⟨rfl, rfl, rfl⟩

/-- C2 counterexample: on a successful execution, `TaskExecutor.run`
returns `json.dumps(res)` — a string — and not the result mapping itself,
so the claim that the returned value is the computed result mapping fails
at this input. -/
theorem c2_success_returns_string_counterexample :
    taskRun (.ok none) (fun _ => .ok []) (.ok [("rc", .n 0)])
      ≠ RunRet.map (ensureChanged [("rc", .n 0)]) := by
  intro h
  exact RunRet.noConfusion h

/-- C2 (amended): every terminal outcome of `TaskExecutor.run` is
determined by a result mapping: any AnsibleError raised by the body — from
loop-item resolution, from the loop, or from the single execution — is
converted into a mapping with failed=true and the message under msg, and a
successful body returns the JSON serialization of the computed result
mapping, with a changed key defaulted to false when absent. -/
theorem c2_run_terminal_outcomes :
    (∀ (e : String) (lr : List RVal → Except String (List RMap)) (xr : Except String RMap),
        taskRun (.error e) lr xr = .map [("failed", .b true), ("msg", .s e)]) ∧
    (∀ (e : String) (lr : List RVal → Except String (List RMap)),
        taskRun (.ok none) lr (.error e) = .map [("failed", .b true), ("msg", .s e)]) ∧
    (∀ (e : String) (its : List RVal) (lr : List RVal → Except String (List RMap))
        (xr : Except String RMap), 0 < its.length → lr its = .error e →
        taskRun (.ok (some its)) lr xr = .map [("failed", .b true), ("msg", .s e)]) ∧
    (∀ (res : RMap) (lr : List RVal → Except String (List RMap)),
        taskRun (.ok none) lr (.ok res) = .jsonStr (ensureChanged res)) ∧
    (∀ (its : List RVal) (irs : List RMap) (lr : List RVal → Except String (List RMap))
        (xr : Except String RMap), 0 < its.length → lr its = .ok irs →
        taskRun (.ok (some its)) lr xr =
          .jsonStr (ensureChanged [("results", RVal.list (irs.map RVal.dict))])) ∧
    (∀ (lr : List RVal → Except String (List RMap)) (xr : Except String RMap),
        taskRun (.ok (some [])) lr xr =
          .jsonStr [("changed", .b false), ("skipped", .b true),
                    ("skipped_reason", .s "No items in the list"), ("results", .list [])]) := by
  refine ⟨fun e lr xr => rfl, fun e lr => rfl, ?_, fun res lr => rfl, ?_, fun lr xr => rfl⟩
  · intro e its lr xr hlen herr
    simp [taskRun, hlen, herr]
  · intro its irs lr xr hlen hok
    simp [taskRun, hlen, hok]

/-- C2 witness: a loop whose `_run_loop` raises an AnsibleError produces
the failed mapping. -/
theorem c2_run_terminal_outcomes_witness :
    taskRun (.ok (some [.s "a"])) (fun _ => .error "boom") (.ok []) =
      .map [("failed", .b true), ("msg", .s "boom")] :=
  c2_run_terminal_outcomes.2.2.1 "boom" [.s "a"] (fun _ => .error "boom") (.ok [])
    (by decide) rfl

/-- C3: for role A depending on B depending on C, `Role.compile` on A with
the empty incoming chain yields the tasks of C, then B, then A; every task
obtained through a dependency is a copy stamped with the extended chain of
the compiling role (here chain-of-A + [A] = [A]), while the own task blocks of A
are appended uncopied and unstamped. -/
theorem c3_role_compile_order :
    ∀ (na nb nc : Nat) (ba bb bc : List PBlock),
      PRole.compile
        (.mk na [.mk nb [.mk nc [] [] bc [] [] []] [] bb [] [] []] [] ba [] [] []) [] =
        ((compile_block_list bc).map (fun t => stampCopy t [na]))
          ++ ((compile_block_list bb).map (fun t => stampCopy t [na]))
          ++ compile_block_list ba := by
  intro na nb nc ba bb bc
  simp [PRole.compile, PRole.compileDeps, List.map_map, Function.comp, stampCopy_stampCopy]

/-- C5: compiling a play whose roles have no dependencies produces the
pre-task tasks, then the own tasks of each role in role order, then the play
tasks, then the post-task tasks, and its length is the total pre-task count
plus the own task count of each role plus the task and post-task counts. -/
theorem c5_play_compile_order :
    ∀ (p : Play), (∀ r ∈ p.roles, r.depsOf = []) →
      Play.compile p =
        compile_block_list p.pre_tasks
          ++ p.roles.flatMap (fun r => compile_block_list r.blocksOf)
          ++ compile_block_list p.tasks ++ compile_block_list p.post_tasks ∧
      (Play.compile p).length =
        (p.pre_tasks.map (fun b => b.block.length)).sum
          + (p.roles.map (fun r => (r.blocksOf.map (fun b => b.block.length)).sum)).sum
          + (p.tasks.map (fun b => b.block.length)).sum
          + (p.post_tasks.map (fun b => b.block.length)).sum := by
  intro p h
  have hroles : Play.compileRoles p = p.roles.flatMap (fun r => compile_block_list r.blocksOf) := by
    unfold Play.compileRoles
    by_cases hpos : p.roles.length > 0
    · simp only [hpos, if_true]
      exact compileRolesGo_no_deps p.roles h
    · have : p.roles = [] := by
        cases hr : p.roles with
        | nil => rfl
        | cons a as => rw [hr] at hpos; simp at hpos
      simp [this, hpos]
  constructor
  · simp [Play.compile, hroles]
  · simp only [Play.compile, hroles, List.length_append, compile_block_list_length,
      List.length_flatMap]
    have hsum : (p.roles.map (List.length ∘ fun r => compile_block_list r.blocksOf)).sum =
        (p.roles.map (fun r => (r.blocksOf.map (fun b => b.block.length)).sum)).sum := by
      congr 1
      apply List.map_congr_left
      intro r _
      simp [Function.comp, compile_block_list_length]
    omega

/-- C5 witness: a play with one pre-task, one dependency-free role holding
two tasks, one task and one post-task compiles to the expected flat
sequence of length 5. -/
theorem c5_play_compile_order_witness :
    Play.compile
      { pre_tasks := [⟨[⟨1, [], false⟩], [], []⟩],
        roles := [.mk 9 [] [] [⟨[⟨2, [], false⟩, ⟨3, [], false⟩], [], []⟩] [] [] []],
        tasks := [⟨[⟨4, [], false⟩], [], []⟩],
        post_tasks := [⟨[⟨5, [], false⟩], [], []⟩] } =
      [⟨1, [], false⟩, ⟨2, [], false⟩, ⟨3, [], false⟩, ⟨4, [], false⟩, ⟨5, [], false⟩] ∧
    (Play.compile
      { pre_tasks := [⟨[⟨1, [], false⟩], [], []⟩],
        roles := [.mk 9 [] [] [⟨[⟨2, [], false⟩, ⟨3, [], false⟩], [], []⟩] [] [] []],
        tasks := [⟨[⟨4, [], false⟩], [], []⟩],
        post_tasks := [⟨[⟨5, [], false⟩], [], []⟩] }).length = 5 := by
  have h := c5_play_compile_order
    { pre_tasks := [⟨[⟨1, [], false⟩], [], []⟩],
      roles := [.mk 9 [] [] [⟨[⟨2, [], false⟩, ⟨3, [], false⟩], [], []⟩] [] [] []],
      tasks := [⟨[⟨4, [], false⟩], [], []⟩],
      post_tasks := [⟨[⟨5, [], false⟩], [], []⟩] }
    (by intro r hr; simp at hr; subst hr; rfl)
  refine ⟨?_, ?_⟩
  · rw [h.1]; rfl
  · rw [h.2]; rfl

/-- The inclusion parameters win on every key they bind. -/
theorem resolved_params_win (r : PRole) (k v : Nat)
    (h : vlookup r.paramsOf k = some v) : vlookup (resolvedVars r) k = some v := by
  unfold resolvedVars
  rw [PRole.get_vars]
  unfold combine_vars
  rw [List.append_assoc, vlookup_append, h]

/-- With no parameter binding a key, the declared role variables win. -/
theorem resolved_role_vars_win (r : PRole) (k v : Nat)
    (hp : vlookup r.paramsOf k = none) (h : vlookup r.roleVarsOf k = some v) :
    vlookup (resolvedVars r) k = some v := by
  unfold resolvedVars
  rw [PRole.get_vars]
  unfold combine_vars
  rw [List.append_assoc, vlookup_append, hp, List.append_assoc, vlookup_append, h]

/-- C6: with defaults x=1, declared role variables x=2 and inclusion
parameters x=3, the resolved scope maps x to 3; with the parameter removed
it maps x to 2; in general a parameter binding wins over a role-variable
binding, which wins whenever no parameter binds the key. -/
theorem c6_var_precedence :
    (∀ (r : PRole), r.defaultVarsOf = [(0, 1)] → r.roleVarsOf = [(0, 2)] →
        r.paramsOf = [(0, 3)] → vlookup (resolvedVars r) 0 = some 3) ∧
    (∀ (r : PRole), r.defaultVarsOf = [(0, 1)] → r.roleVarsOf = [(0, 2)] →
        r.paramsOf = [] → vlookup (resolvedVars r) 0 = some 2) ∧
    (∀ (r : PRole) (k v : Nat), vlookup r.paramsOf k = some v →
        vlookup (resolvedVars r) k = some v) ∧
    (∀ (r : PRole) (k v : Nat), vlookup r.paramsOf k = none →
        vlookup r.roleVarsOf k = some v → vlookup (resolvedVars r) k = some v) := by
  refine ⟨?_, ?_, resolved_params_win, resolved_role_vars_win⟩
  · intro r _ _ hp
    exact resolved_params_win r 0 3 (by rw [hp]; rfl)
  · intro r _ hrv hp
    exact resolved_role_vars_win r 0 2 (by rw [hp]; rfl) (by rw [hrv]; rfl)

/-- C6 witness: the concrete role with defaults x=1, role vars x=2 and
params x=3 resolves x to 3, and to 2 once the parameter set is empty. -/
theorem c6_var_precedence_witness :
    vlookup (resolvedVars (.mk 0 [] [] [] [(0, 1)] [(0, 2)] [(0, 3)])) 0 = some 3 ∧
    vlookup (resolvedVars (.mk 0 [] [] [] [(0, 1)] [(0, 2)] [])) 0 = some 2 :=
  ⟨c6_var_precedence.1 (.mk 0 [] [] [] [(0, 1)] [(0, 2)] [(0, 3)]) rfl rfl rfl,
   c6_var_precedence.2.1 (.mk 0 [] [] [] [(0, 1)] [(0, 2)] []) rfl rfl rfl⟩

/-- The item loop visits the items in order, pairing each position with its
handler. -/
theorem runLoopGo_enum (ce : Nat → Option String) (er : Nat → RMap) :
    ∀ (items : List RVal) (i : Nat),
      runLoopGo ce er i items =
        (List.enumFrom i items).map (fun q =>
          match ce q.1 with
          | some e => [("failed", .b true), ("msg", .s e)]
          | none => rSet (er q.1) "item" q.2) := by
  intro items
  induction items with
  | nil => intro i; simp [runLoopGo]
  | cons a as ih =>
    intro i
    rw [List.enumFrom_cons]
    cases h : ce i with
    | some e => simp [runLoopGo, h, ih]
    | none => simp [runLoopGo, h, ih]

/-- C9: a looped task over a non-empty item list with an action outside the
squash set produces one sub-result per item in the original order — the
`_execute` outcome of that position with the literal item value bound under
`item`, or, when the per-item task copy fails, a bare failed sub-result in
place, with the remaining items still executed. -/
theorem c9_run_loop_per_item :
    ∀ (action : String) (guard : RVal → Bool) (ce : Nat → Option String) (er : Nat → RMap)
      (items : List RVal),
      action ∉ (["apt", "yum", "pkgng", "zypper"] : List String) → items ≠ [] →
      runLoop action guard ce er items =
        (List.enumFrom 0 items).map (fun q =>
          match ce q.1 with
          | some e => [("failed", .b true), ("msg", .s e)]
          | none => rSet (er q.1) "item" q.2) ∧
      (runLoop action guard ce er items).length = items.length := by
  intro action guard ce er items hact _hne
  have hsq : squashItems action guard items = items := by
    unfold squashItems
    rw [if_neg]
    intro hc
    exact hact hc.2
  have h1 : runLoop action guard ce er items =
      (List.enumFrom 0 items).map (fun q =>
        match ce q.1 with
        | some e => [("failed", .b true), ("msg", .s e)]
        | none => rSet (er q.1) "item" q.2) := by
    unfold runLoop
    rw [hsq, runLoopGo_enum]
  refine ⟨h1, ?_⟩
  rw [h1]
  simp

/-- C9 witness: two items with a failing copy on the second produce the
executed first sub-result and an in-place failed second sub-result. -/
theorem c9_run_loop_per_item_witness :
    runLoop "shell" (fun _ => true) (fun i => if i = 1 then some "bad" else none)
        (fun i => [("rc", .n i)]) [.s "a", .s "b"] =
      [rSet [("rc", .n 0)] "item" (.s "a"), [("failed", .b true), ("msg", .s "bad")]] := by
  have h := c9_run_loop_per_item "shell" (fun _ => true)
    (fun i => if i = 1 then some "bad" else none) (fun i => [("rc", .n i)])
    [.s "a", .s "b"] (by decide) (by simp)
  rw [h.1]
  rfl

/-- C10: for a squash-eligible action and a non-empty item list,
`_squash_items` always returns the single comma-join of the items whose
per-item guard passed; in particular when every guard fails the loop still
runs exactly once, with the empty string bound as the item. -/
theorem c10_squash_join :
    ∀ (action : String) (guard : RVal → Bool) (items : List RVal),
      action ∈ (["apt", "yum", "pkgng", "zypper"] : List String) → items ≠ [] →
      squashItems action guard items =
        [RVal.s (String.intercalate "," ((items.filter guard).map strOfRVal))] ∧
      ((∀ x ∈ items, guard x = false) →
        ∀ (ce : Nat → Option String) (er : Nat → RMap), ce 0 = none →
          runLoop action guard ce er items = [rSet (er 0) "item" (.s "")]) := by
  intro action guard items hact hne
  have hlen : 0 < items.length := List.length_pos.mpr hne
  have hsq : squashItems action guard items =
      [RVal.s (String.intercalate "," ((items.filter guard).map strOfRVal))] := by
    unfold squashItems
    rw [if_pos ⟨hlen, hact⟩]
  refine ⟨hsq, ?_⟩
  intro hguard ce er hce
  have hfil : items.filter guard = [] := by
    rw [List.filter_eq_nil_iff]
    intro a ha
    simp [hguard a ha]
  unfold runLoop
  rw [hsq, hfil]
  simp [runLoopGo, hce, String.intercalate]

/-- C10 witness: an apt task over two items whose guards both fail squashes
to the single empty-string item and executes exactly once. -/
theorem c10_squash_join_witness :
    runLoop "apt" (fun _ => false) (fun _ => none) (fun _ => [("rc", .n 0)])
        [.s "vim", .s "git"] = [rSet [("rc", .n 0)] "item" (.s "")] :=
  (c10_squash_join "apt" (fun _ => false) [.s "vim", .s "git"] (by decide) (by simp)).2
    (by intro x _; rfl) (fun _ => none) (fun _ => [("rc", .n 0)]) rfl

/-- If no status ever breaks the poll loop, a positive budget still
produces a last status, and it is a non-breaking one. -/
theorem pollLoop_no_break (statuses : Nat → RMap) (p : Nat) (hp : 0 < p) :
    ∀ (tl i : Nat), 0 < tl → (∀ j, breakStatus (statuses j) = false) →
      ∃ r, pollLoop statuses p hp tl i = some r ∧ breakStatus r = false := by
  intro tl
  induction tl using Nat.strong_induction_on with
  | _ tl ih =>
    intro i htl hall
    have heq : pollLoop statuses p hp tl i =
        (match pollLoop statuses p hp (tl - p) (i + 1) with
         | some r2 => some r2
         | none => some (statuses i)) := by
      rw [pollLoop, dif_pos htl]
      simp [hall i]
    by_cases h2 : 0 < tl - p
    · obtain ⟨r, hr, hbr⟩ := ih (tl - p) (Nat.sub_lt htl hp) (i + 1) h2 hall
      exact ⟨r, by rw [heq, hr], hbr⟩
    · have hnone : pollLoop statuses p hp (tl - p) (i + 1) = none := by
        rw [pollLoop, dif_neg h2]
      exact ⟨statuses i, by rw [heq, hnone], hall i⟩

/-- The poll loop stops at the first breaking status, provided the budget
still covers that iteration. -/
theorem pollLoop_first_break (statuses : Nat → RMap) (p : Nat) (hp : 0 < p) :
    ∀ (k tl i : Nat), (∀ j, j < k → breakStatus (statuses (i + j)) = false) →
      breakStatus (statuses (i + k)) = true → k * p < tl →
      pollLoop statuses p hp tl i = some (statuses (i + k)) := by
  intro k
  induction k with
  | zero =>
    intro tl i _ hbrk htl
    simp only [Nat.zero_mul] at htl
    rw [pollLoop, dif_pos htl]
    simp [show breakStatus (statuses i) = true from by simpa using hbrk]
  | succ k ih =>
    intro tl i hlt hbrk htl
    have hp0 : breakStatus (statuses i) = false := by simpa using hlt 0 (Nat.succ_pos k)
    have htl0 : 0 < tl := lt_of_le_of_lt (Nat.zero_le _) htl
    have hrec : pollLoop statuses p hp (tl - p) (i + 1) = some (statuses (i + 1 + k)) := by
      apply ih
      · intro j hj
        have := hlt (j + 1) (by omega)
        rwa [show i + (j + 1) = i + 1 + j from by omega] at this
      · rwa [show i + 1 + k = i + (k + 1) from by omega]
      · rw [Nat.succ_mul] at htl; omega
    rw [pollLoop, dif_pos htl0]
    simp [hp0, hrec, show i + 1 + k = i + (k + 1) from by omega]

/-- C8: `_poll_async_result` fails immediately, without consulting any
status, when the submission result carries no job id; with a job id it
polls until the first status that reports finished=1 or carries a
failed/skip marker (returning that status verbatim exactly when it reports
finished=1 and the timeout failure otherwise), and when no status ever
breaks the loop the budget runs out and the timeout failure is returned. -/
theorem c8_poll_async :
    (∀ (initial : RMap) (a p : Nat) (hp : 0 < p) (st : Nat → RMap),
        rGet initial "ansible_job_id" = none →
        pollAsyncResult initial a p hp st =
          some [("failed", .b true),
                ("msg", .s "No job id was returned by the async task")]) ∧
    (∀ (initial : RMap) (a p : Nat) (hp : 0 < p) (st : Nat → RMap) (jid : RVal) (k : Nat),
        rGet initial "ansible_job_id" = some jid →
        (∀ j, j < k → breakStatus (st j) = false) → breakStatus (st k) = true →
        k * p < a →
        pollAsyncResult initial a p hp st =
          (if rGetIntD (st k) "finished" 0 == 1 then some (st k)
           else some [("failed", .b true),
                      ("msg", .s "async task did not complete within the requested time")])) ∧
    (∀ (initial : RMap) (a p : Nat) (hp : 0 < p) (st : Nat → RMap) (jid : RVal),
        rGet initial "ansible_job_id" = some jid → 0 < a →
        (∀ j, breakStatus (st j) = false) →
        pollAsyncResult initial a p hp st =
          some [("failed", .b true),
                ("msg", .s "async task did not complete within the requested time")]) := by
  refine ⟨?_, ?_, ?_⟩
  · intro initial a p hp st hjid
    rw [pollAsyncResult, if_pos (by rw [hjid]; rfl)]
  · intro initial a p hp st jid k hjid hlt hbrk ha
    have hloop := pollLoop_first_break st p hp k a 0 (by simpa using hlt) (by simpa using hbrk)
      ha
    rw [pollAsyncResult, if_neg (by rw [hjid]; simp)]
    simp only [Nat.zero_add] at hloop
    rw [hloop]
  · intro initial a p hp st jid hjid ha hall
    obtain ⟨r, hr, hbr⟩ := pollLoop_no_break st p hp a 0 ha hall
    have hfin : (rGetIntD r "finished" 0 == 1) = false := by
      unfold breakStatus at hbr
      simp only [Bool.or_eq_false_iff] at hbr
      exact hbr.1.1
    rw [pollAsyncResult, if_neg (by rw [hjid]; simp), hr]
    simp [hfin]

/-- C8 witness: with a job id, poll 2 inside a budget of 5, a first status
that does not break and a second that reports finished=1, the second status
is returned verbatim. -/
theorem c8_poll_async_witness :
    pollAsyncResult [("ansible_job_id", .s "j")] 5 2 (by decide)
        (fun i => if i = 1 then [("finished", .n 1)] else []) =
      some [("finished", .n 1)] := by
  have h := c8_poll_async.2.1 [("ansible_job_id", .s "j")] 5 2 (by decide)
    (fun i => if i = 1 then [("finished", .n 1)] else []) (.s "j") 1
    rfl
    (by intro j hj; interval_cases j <;> rfl)
    rfl
    (by decide)
  simpa using h

/-- Every exception escaping the dependency loop comes from one of its
role-loader invocations. -/
theorem loadDepsWith_error_source
    (load : LoadState → Nat → List (Nat × Nat) → Option Nat → Except PyErr (Nat × LoadState)) :
    ∀ (incs : List (Nat × List (Nat × Nat))) (st : LoadState) (owner : Nat) (e : PyErr),
      loadDepsWith load st incs owner = .error e →
      ∃ s n p q, load s n p q = .error e := by
  intro incs
  induction incs with
  | nil => intro st owner e h; simp [loadDepsWith] at h
  | cons inc rest ih =>
    intro st owner e h
    rw [loadDepsWith] at h
    cases hl : load st inc.1 inc.2 (some owner) with
    | error e0 =>
      rw [hl] at h
      simp only [Except.error.injEq] at h
      rw [← h]
      exact ⟨st, inc.1, inc.2, some owner, hl⟩
    | ok v =>
      obtain ⟨rid1, st1⟩ := v
      rw [hl] at h
      dsimp only at h
      cases hl2 : loadDepsWith load st1 rest owner with
      | error e0 =>
        rw [hl2] at h
        simp only [Except.error.injEq] at h
        rw [← h]
        exact ih st1 owner e0 hl2
      | ok v2 =>
        obtain ⟨rids2, st2⟩ := v2
        rw [hl2] at h
        simp at h

/-- The only exceptions `Role.load` can produce: the bare interpreter
RuntimeError when entered with no recursion budget, and otherwise the one
fixed AnsibleError text about a detected recursion loop — the message is
the same whatever the roles involved. -/
theorem roleLoad_error_shape :
    ∀ (fuel : Nat) (g : RoleGraph) (st : LoadState) (name : Nat)
      (params : List (Nat × Nat)) (parent : Option Nat) (e : PyErr),
      roleLoad g fuel st name params parent = .error e →
      e = .ansible recursionLoopMsg ∨ (e = .runtime ∧ fuel = 0) := by
  intro fuel
  induction fuel with
  | zero =>
    intro g st name params parent e h
    simp only [roleLoad, Except.error.injEq] at h
    exact Or.inr ⟨h.symm, rfl⟩
  | succ f ih =>
    intro g st name params parent e h
    cases hc : cacheLookup st name params with
    | some rid0 =>
      simp only [roleLoad, hc] at h
      cases parent with
      | some q => simp at h
      | none => simp at h
    | none =>
      simp only [roleLoad, hc] at h
      cases hld : loadDepsWith (roleLoad g f) (allocRole st name params parent) (g name)
          st.store.length with
      | ok v =>
        obtain ⟨depIds, st2⟩ := v
        rw [hld] at h
        simp at h
      | error e0 =>
        rw [hld] at h
        obtain ⟨s, n, p, q, hsrc⟩ := loadDepsWith_error_source (roleLoad g f) (g name)
          (allocRole st name params parent) st.store.length e0 hld
        have hcls := ih g s n p q e0 hsrc
        cases e0 with
        | runtime =>
          simp only [Except.error.injEq] at h
          exact Or.inl h.symm
        | ansible m =>
          simp only [Except.error.injEq] at h
          rcases hcls with hm | hm
          · rw [← h, hm]
            exact Or.inl rfl
          · exact absurd hm.1 (by simp)

/-- A role that reaches the trap set has (through the closure property of
the set) an include that reaches it. -/
theorem reaches_gives_include (g : RoleGraph) (S : List Nat)
    (hcyc : ∀ s ∈ S, ∃ inc ∈ g s, inc.1 ∈ S) :
    ∀ (n : Nat), ReachesCycle g S n → ∃ inc ∈ g n, ReachesCycle g S inc.1 := by
  intro n hr
  cases hr with
  | base _ hmem =>
    obtain ⟨inc, hinc, hmem2⟩ := hcyc n hmem
    exact ⟨inc, hinc, .base _ hmem2⟩
  | step _ inc hinc hr2 => exact ⟨inc, hinc, hr2⟩

/-- The trap lemma behind cycle detection.  Fix a set `S` of role names in
which every member declares an include on a member — the member set of any
dependency cycle is such a set.  If no role reaching `S` is cached, then
any successful load preserves that cache condition (a role on or above a
cycle can never finish loading and register itself), and the load of a role
with an include reaching `S` produces an exception, at every recursion
budget. -/
theorem roleLoad_cycle_trap (g : RoleGraph) (S : List Nat)
    (hcyc : ∀ s ∈ S, ∃ inc ∈ g s, inc.1 ∈ S) :
    ∀ (fuel : Nat),
      (∀ (st : LoadState) (name : Nat) (params : List (Nat × Nat)) (parent : Option Nat),
        (∀ n, ReachesCycle g S n → ∀ p, cacheLookup st n p = none) →
        (∀ (rid : Nat) (st' : LoadState),
          roleLoad g fuel st name params parent = .ok (rid, st') →
          ∀ n, ReachesCycle g S n → ∀ p, cacheLookup st' n p = none) ∧
        ((∃ inc ∈ g name, ReachesCycle g S inc.1) →
          ∃ e, roleLoad g fuel st name params parent = .error e)) ∧
      (∀ (incs : List (Nat × List (Nat × Nat))) (st : LoadState) (owner : Nat),
        (∀ n, ReachesCycle g S n → ∀ p, cacheLookup st n p = none) →
        (∀ (rids : List Nat) (st' : LoadState),
          loadDepsWith (roleLoad g fuel) st incs owner = .ok (rids, st') →
          ∀ n, ReachesCycle g S n → ∀ p, cacheLookup st' n p = none) ∧
        ((∃ inc ∈ incs, ReachesCycle g S inc.1) →
          ∃ e, loadDepsWith (roleLoad g fuel) st incs owner = .error e)) := by
  intro fuel
  induction fuel with
  | zero =>
    constructor
    · intro st name params parent hfree
      constructor
      · intro rid st' h; simp [roleLoad] at h
      · intro _; exact ⟨.runtime, rfl⟩
    · intro incs st owner hfree
      constructor
      · intro rids st' h n hn p
        cases incs with
        | nil =>
          simp only [loadDepsWith, Except.ok.injEq, Prod.mk.injEq] at h
          rw [← h.2]
          exact hfree n hn p
        | cons inc rest => simp [loadDepsWith, roleLoad] at h
      · rintro ⟨inc0, hinc0, _⟩
        cases incs with
        | nil => simp at hinc0
        | cons inc rest => exact ⟨.runtime, by simp [loadDepsWith, roleLoad]⟩
  | succ f ih =>
    have hA : ∀ (st : LoadState) (name : Nat) (params : List (Nat × Nat))
        (parent : Option Nat),
        (∀ n, ReachesCycle g S n → ∀ p, cacheLookup st n p = none) →
        (∀ (rid : Nat) (st' : LoadState),
          roleLoad g (f + 1) st name params parent = .ok (rid, st') →
          ∀ n, ReachesCycle g S n → ∀ p, cacheLookup st' n p = none) ∧
        ((∃ inc ∈ g name, ReachesCycle g S inc.1) →
          ∃ e, roleLoad g (f + 1) st name params parent = .error e) := by
      intro st name params parent hfree
      have hfree1 : ∀ n, ReachesCycle g S n → ∀ p,
          cacheLookup (allocRole st name params parent) n p = none := hfree
      constructor
      · intro rid st' hok n hn p
        cases hc : cacheLookup st name params with
        | some rid0 =>
          simp only [roleLoad, hc] at hok
          cases parent with
          | some q =>
            simp only [Except.ok.injEq, Prod.mk.injEq] at hok
            rw [← hok.2]
            exact hfree n hn p
          | none =>
            simp only [Except.ok.injEq, Prod.mk.injEq] at hok
            rw [← hok.2]
            exact hfree n hn p
        | none =>
          simp only [roleLoad, hc] at hok
          cases hld : loadDepsWith (roleLoad g f) (allocRole st name params parent) (g name)
              st.store.length with
          | error e => rw [hld] at hok; cases e <;> simp at hok
          | ok v =>
            obtain ⟨depIds, st2⟩ := v
            rw [hld] at hok
            dsimp only at hok
            simp only [Except.ok.injEq, Prod.mk.injEq] at hok
            have hnr : ¬ ReachesCycle g S name := by
              intro hr
              obtain ⟨inc, hinc, hr2⟩ := reaches_gives_include g S hcyc name hr
              obtain ⟨e, he⟩ := ((ih.2) (g name) (allocRole st name params parent)
                st.store.length hfree1).2 ⟨inc, hinc, hr2⟩
              rw [he] at hld
              exact Except.noConfusion hld
            have h2 := ((ih.2) (g name) (allocRole st name params parent)
              st.store.length hfree1).1 depIds st2 hld n hn p
            rw [← hok.2]
            show cacheFind ((name, params, st.store.length) ::
              (setRoleDeps st2 st.store.length depIds).cache) n p = none
            rw [cacheFind, if_neg]
            · exact h2
            · rintro ⟨hk1, hk2⟩
              subst hk1
              exact hnr hn
      · rintro ⟨inc, hinc, hr⟩
        have hc : cacheLookup st name params = none :=
          hfree name (.step name inc hinc hr) params
        obtain ⟨e, he⟩ := ((ih.2) (g name) (allocRole st name params parent)
          st.store.length hfree1).2 ⟨inc, hinc, hr⟩
        cases e with
        | runtime => exact ⟨.ansible recursionLoopMsg, by simp only [roleLoad, hc, he]⟩
        | ansible m => exact ⟨.ansible m, by simp only [roleLoad, hc, he]⟩
    refine ⟨hA, ?_⟩
    intro incs
    induction incs with
    | nil =>
      intro st owner hfree
      constructor
      · intro rids st' h n hn p
        simp only [loadDepsWith, Except.ok.injEq, Prod.mk.injEq] at h
        rw [← h.2]
        exact hfree n hn p
      · rintro ⟨inc0, hinc0, _⟩
        simp at hinc0
    | cons inc rest ihl =>
      intro st owner hfree
      constructor
      · intro rids st' h n hn p
        rw [loadDepsWith] at h
        cases hl : roleLoad g (f + 1) st inc.1 inc.2 (some owner) with
        | error e => rw [hl] at h; simp at h
        | ok v =>
          obtain ⟨rid1, st1⟩ := v
          rw [hl] at h
          dsimp only at h
          have hfree1 := (hA st inc.1 inc.2 (some owner) hfree).1 rid1 st1 hl
          cases hl2 : loadDepsWith (roleLoad g (f + 1)) st1 rest owner with
          | error e => rw [hl2] at h; simp at h
          | ok v2 =>
            obtain ⟨rids2, st2⟩ := v2
            rw [hl2] at h
            simp only [Except.ok.injEq, Prod.mk.injEq] at h
            rw [← h.2]
            exact (ihl st1 owner hfree1).1 rids2 st2 hl2 n hn p
      · rintro ⟨inc0, hinc0, hr0⟩
        rcases List.mem_cons.mp hinc0 with heq | hmem
        · subst heq
          obtain ⟨inc1, hinc1, hr1⟩ := reaches_gives_include g S hcyc inc0.1 hr0
          obtain ⟨e, he⟩ := (hA st inc0.1 inc0.2 (some owner) hfree).2 ⟨inc1, hinc1, hr1⟩
          exact ⟨e, by rw [loadDepsWith, he]⟩
        · cases hl : roleLoad g (f + 1) st inc.1 inc.2 (some owner) with
          | error e => exact ⟨e, by rw [loadDepsWith, hl]⟩
          | ok v =>
            obtain ⟨rid1, st1⟩ := v
            have hfree1 := (hA st inc.1 inc.2 (some owner) hfree).1 rid1 st1 hl
            obtain ⟨e, he⟩ := (ihl st1 owner hfree1).2 ⟨inc0, hmem, hr0⟩
            refine ⟨e, ?_⟩
            rw [loadDepsWith, hl]
            dsimp only
            rw [he]

/-- C4 counterexample: the configuration error raised for a cycle does not
name the cycle.  The outcome of loading role 0 of the 0-1 cycle and the
outcome of loading role 2 of a disjoint 2-3 cycle are the identical fixed
AnsibleError value, whose message is the generic recursion-loop text — had
the error named the member roles, the two outcomes would differ. -/
theorem c4_cycle_not_named_counterexample :
    roleLoad cycleGraph 4 ⟨[], []⟩ 0 [] none =
      roleLoad (fun n => if n = 2 then [(3, [])] else if n = 3 then [(2, [])] else [])
        4 ⟨[], []⟩ 2 [] none ∧
    roleLoad cycleGraph 4 ⟨[], []⟩ 0 [] none = .error (.ansible recursionLoopMsg) :=
  ⟨rfl, rfl⟩

/-- C4 (amended): for every dependency graph and every role whose
declarations form a cycle — a set `S` of role names in which every member
includes a member, with the loaded role reaching `S` along include edges —
and every state in which no role reaching the cycle is cached (as in any
real run, since such a role can never finish loading and register itself),
`Role.load` terminates at every recursion budget and fails with the
configuration error (AnsibleError) reporting that a recursion loop was
detected with the roles specified; it never recurses unboundedly.  The
message is a fixed text that does not name the member roles. -/
theorem c4_role_cycle_detected :
    ∀ (g : RoleGraph) (S : List Nat) (st : LoadState) (name : Nat)
      (params : List (Nat × Nat)) (parent : Option Nat) (fuel : Nat),
      (∀ s ∈ S, ∃ inc ∈ g s, inc.1 ∈ S) →
      ReachesCycle g S name →
      (∀ n, ReachesCycle g S n → ∀ p, cacheLookup st n p = none) →
      roleLoad g (fuel + 1) st name params parent = .error (.ansible recursionLoopMsg) := by
  intro g S st name params parent fuel hcyc hreach hfree
  obtain ⟨inc, hinc, hr⟩ := reaches_gives_include g S hcyc name hreach
  obtain ⟨e, he⟩ :=
    ((roleLoad_cycle_trap g S hcyc (fuel + 1)).1 st name params parent hfree).2
      ⟨inc, hinc, hr⟩
  rcases roleLoad_error_shape (fuel + 1) g st name params parent e he with hcls | hcls
  · rw [he, hcls]
  · exact absurd hcls.2 (Nat.succ_ne_zero fuel)

/-- C4 witness: the 0-1 cycle loaded from the empty state with budget 4. -/
theorem c4_role_cycle_detected_witness :
    roleLoad cycleGraph 4 ⟨[], []⟩ 0 [] none = .error (.ansible recursionLoopMsg) :=
  c4_role_cycle_detected cycleGraph [0, 1] ⟨[], []⟩ 0 [] none 3
    (by
      intro s hs
      rcases List.mem_cons.mp hs with h | h
      · subst h
        exact ⟨(1, []), by simp [cycleGraph], by simp⟩
      · rcases List.mem_cons.mp h with h2 | h2
        · subst h2
          exact ⟨(0, []), by simp [cycleGraph], by simp⟩
        · simp at h2)
    (.base 0 (by simp))
    (fun n _ p => rfl)

theorem modifyAt_length (f : RoleObj → RoleObj) :
    ∀ (l : List RoleObj) (i : Nat), (modifyAt l i f).length = l.length := by
  intro l
  induction l with
  | nil => intro i; rfl
  | cons x xs ih =>
    intro i
    cases i with
    | zero => rfl
    | succ j => simp [modifyAt, ih]

theorem addParent_cache (st : LoadState) (rid p : Nat) :
    (addParent st rid p).cache = st.cache := rfl

theorem addParent_store_length (st : LoadState) (rid p : Nat) :
    (addParent st rid p).store.length = st.store.length := by
  simp [addParent, modifyAt_length]

theorem setRoleDeps_store_length (st : LoadState) (rid : Nat) (ds : List Nat) :
    (setRoleDeps st rid ds).store.length = st.store.length := by
  simp [setRoleDeps, modifyAt_length]

theorem allocRole_store_length (st : LoadState) (name : Nat) (params : List (Nat × Nat))
    (parent : Option Nat) : (allocRole st name params parent).store.length =
      st.store.length + 1 := by
  simp [allocRole]

theorem cacheFind_some_mem :
    ∀ (l : List (Nat × List (Nat × Nat) × Nat)) (n : Nat) (p : List (Nat × Nat)) (r : Nat),
      cacheFind l n p = some r → (n, p, r) ∈ l := by
  intro l
  induction l with
  | nil => intro n p r h; simp [cacheFind] at h
  | cons e rest ih =>
    intro n p r h
    by_cases hc : e.1 = n ∧ e.2.1 = p
    · rw [cacheFind, if_pos hc] at h
      obtain ⟨e1, e2, e3⟩ := e
      obtain ⟨hc1, hc2⟩ := hc
      simp at hc1 hc2 h
      subst hc1; subst hc2; subst h
      exact List.mem_cons_self _ _
    · rw [cacheFind, if_neg hc] at h
      exact List.mem_cons_of_mem _ (ih n p r h)

theorem mem_cacheFind_ne_none :
    ∀ (l : List (Nat × List (Nat × Nat) × Nat)) (n : Nat) (p : List (Nat × Nat)) (r : Nat),
      (n, p, r) ∈ l → cacheFind l n p ≠ none := by
  intro l
  induction l with
  | nil => intro n p r h; simp at h
  | cons e rest ih =>
    intro n p r h
    rcases List.mem_cons.mp h with h1 | h1
    · subst h1
      rw [cacheFind, if_pos ⟨rfl, rfl⟩]
      simp
    · by_cases hc : e.1 = n ∧ e.2.1 = p
      · rw [cacheFind, if_pos hc]; simp
      · rw [cacheFind, if_neg hc]; exact ih n p r h1

/-- Growth of the state through the dependency loop, parameterized over the
behaviour of the role loader it invokes: the arena only grows, and every
new cache entry points into the part of the arena that did not exist
before. -/
theorem loadDepsWith_weak
    (load : LoadState → Nat → List (Nat × Nat) → Option Nat → Except PyErr (Nat × LoadState))
    (hload : ∀ (st : LoadState) (n : Nat) (p : List (Nat × Nat)) (par : Option Nat)
        (rid : Nat) (st' : LoadState), load st n p par = .ok (rid, st') →
        st.store.length ≤ st'.store.length ∧
        ∀ e ∈ st'.cache, e ∈ st.cache ∨ st.store.length ≤ e.2.2) :
    ∀ (incs : List (Nat × List (Nat × Nat))) (st : LoadState) (owner : Nat)
      (rids : List Nat) (st' : LoadState),
      loadDepsWith load st incs owner = .ok (rids, st') →
      st.store.length ≤ st'.store.length ∧
      ∀ e ∈ st'.cache, e ∈ st.cache ∨ st.store.length ≤ e.2.2 := by
  intro incs
  induction incs with
  | nil =>
    intro st owner rids st' h
    simp only [loadDepsWith, Except.ok.injEq, Prod.mk.injEq] at h
    rw [← h.2]
    exact ⟨Nat.le_refl _, fun e he => Or.inl he⟩
  | cons inc rest ih =>
    intro st owner rids st' h
    rw [loadDepsWith] at h
    cases hl : load st inc.1 inc.2 (some owner) with
    | error e => rw [hl] at h; simp at h
    | ok v =>
      obtain ⟨rid1, st1⟩ := v
      rw [hl] at h
      dsimp only at h
      cases hl2 : loadDepsWith load st1 rest owner with
      | error e => rw [hl2] at h; simp at h
      | ok v2 =>
        obtain ⟨rids2, st2⟩ := v2
        rw [hl2] at h
        dsimp only at h
        simp only [Except.ok.injEq, Prod.mk.injEq] at h
        rw [← h.2]
        have A := hload st inc.1 inc.2 (some owner) rid1 st1 hl
        have B := ih st1 owner rids2 st2 hl2
        refine ⟨Nat.le_trans A.1 B.1, ?_⟩
        intro e he
        rcases B.2 e he with h1 | h1
        · rcases A.2 e h1 with h2 | h2
          · exact Or.inl h2
          · exact Or.inr h2
        · exact Or.inr (Nat.le_trans A.1 h1)

/-- Growth of the state through `Role.load`: the arena only grows, and
every new cache entry points into arena space allocated by this call. -/
theorem roleLoad_weak :
    ∀ (fuel : Nat) (g : RoleGraph) (st : LoadState) (name : Nat)
      (params : List (Nat × Nat)) (parent : Option Nat) (rid : Nat) (st' : LoadState),
      roleLoad g fuel st name params parent = .ok (rid, st') →
      st.store.length ≤ st'.store.length ∧
      ∀ e ∈ st'.cache, e ∈ st.cache ∨ st.store.length ≤ e.2.2 := by
  intro fuel
  induction fuel with
  | zero => intro g st name params parent rid st' h; simp [roleLoad] at h
  | succ f ih =>
    intro g st name params parent rid st' h
    cases hc : cacheLookup st name params with
    | some rid0 =>
      simp only [roleLoad, hc] at h
      cases parent with
      | some q =>
        simp only [Except.ok.injEq, Prod.mk.injEq] at h
        rw [← h.2]
        refine ⟨Nat.le_of_eq (addParent_store_length st rid0 q).symm, ?_⟩
        intro e he
        rw [addParent_cache] at he
        exact Or.inl he
      | none =>
        simp only [Except.ok.injEq, Prod.mk.injEq] at h
        rw [← h.2]
        exact ⟨Nat.le_refl _, fun e he => Or.inl he⟩
    | none =>
      simp only [roleLoad, hc] at h
      cases hld : loadDepsWith (roleLoad g f) (allocRole st name params parent) (g name)
          st.store.length with
      | error e => rw [hld] at h; cases e <;> simp at h
      | ok v =>
        obtain ⟨depIds, st2⟩ := v
        rw [hld] at h
        simp only [Except.ok.injEq, Prod.mk.injEq] at h
        rw [← h.2]
        have A := loadDepsWith_weak (roleLoad g f)
          (fun s n p par r s' hh => ih g s n p par r s' hh)
          (g name) (allocRole st name params parent) st.store.length depIds st2 hld
        rw [allocRole_store_length] at A
        constructor
        · show st.store.length ≤ (registerRole (setRoleDeps st2 st.store.length depIds)
            name params st.store.length).store.length
          have : (registerRole (setRoleDeps st2 st.store.length depIds)
              name params st.store.length).store.length = st2.store.length := by
            simp [registerRole, setRoleDeps_store_length]
          omega
        · intro e he
          simp only [registerRole, setRoleDeps] at he
          rcases List.mem_cons.mp he with h1 | h1
          · subst h1
            exact Or.inr (Nat.le_refl _)
          · rcases A.2 e h1 with h2 | h2
            · exact Or.inl h2
            · exact Or.inr (by omega)

/-- `Role.load` registers the role it returns under its name and parameter
set: after a successful load the cache resolves that key to the returned
object. -/
theorem roleLoad_registers :
    ∀ (fuel : Nat) (g : RoleGraph) (st : LoadState) (name : Nat)
      (params : List (Nat × Nat)) (parent : Option Nat) (rid : Nat) (st' : LoadState),
      roleLoad g fuel st name params parent = .ok (rid, st') →
      cacheLookup st' name params = some rid := by
  intro fuel g st name params parent rid st' h
  cases fuel with
  | zero => simp [roleLoad] at h
  | succ f =>
    cases hc : cacheLookup st name params with
    | some rid0 =>
      simp only [roleLoad, hc] at h
      cases parent with
      | some q =>
        simp only [Except.ok.injEq, Prod.mk.injEq] at h
        rw [← h.2, ← h.1]
        exact hc
      | none =>
        simp only [Except.ok.injEq, Prod.mk.injEq] at h
        rw [← h.2, ← h.1]
        exact hc
    | none =>
      simp only [roleLoad, hc] at h
      cases hld : loadDepsWith (roleLoad g f) (allocRole st name params parent) (g name)
          st.store.length with
      | error e => rw [hld] at h; cases e <;> simp at h
      | ok v =>
        obtain ⟨depIds, st2⟩ := v
        rw [hld] at h
        simp only [Except.ok.injEq, Prod.mk.injEq] at h
        rw [← h.2, ← h.1]
        simp [cacheLookup, registerRole, cacheFind]

/-- A cache binding survives any successful pass through the dependency
loop, given that it survives the role loader the loop invokes. -/
theorem loadDepsWith_stable
    (load : LoadState → Nat → List (Nat × Nat) → Option Nat → Except PyErr (Nat × LoadState))
    (hload : ∀ (st : LoadState) (n : Nat) (p : List (Nat × Nat)) (par : Option Nat)
        (rid : Nat) (st' : LoadState) (n0 : Nat) (p0 : List (Nat × Nat)) (r0 : Nat),
        cacheLookup st n0 p0 = some r0 → load st n p par = .ok (rid, st') →
        cacheLookup st' n0 p0 = some r0) :
    ∀ (incs : List (Nat × List (Nat × Nat))) (st : LoadState) (owner : Nat)
      (rids : List Nat) (st' : LoadState) (n0 : Nat) (p0 : List (Nat × Nat)) (r0 : Nat),
      cacheLookup st n0 p0 = some r0 →
      loadDepsWith load st incs owner = .ok (rids, st') →
      cacheLookup st' n0 p0 = some r0 := by
  intro incs
  induction incs with
  | nil =>
    intro st owner rids st' n0 p0 r0 h0 h
    simp only [loadDepsWith, Except.ok.injEq, Prod.mk.injEq] at h
    rw [← h.2]
    exact h0
  | cons inc rest ih =>
    intro st owner rids st' n0 p0 r0 h0 h
    rw [loadDepsWith] at h
    cases hl : load st inc.1 inc.2 (some owner) with
    | error e => rw [hl] at h; simp at h
    | ok v =>
      obtain ⟨rid1, st1⟩ := v
      rw [hl] at h
      dsimp only at h
      cases hl2 : loadDepsWith load st1 rest owner with
      | error e => rw [hl2] at h; simp at h
      | ok v2 =>
        obtain ⟨rids2, st2⟩ := v2
        rw [hl2] at h
        dsimp only at h
        simp only [Except.ok.injEq, Prod.mk.injEq] at h
        rw [← h.2]
        exact ih st1 owner rids2 st2 n0 p0 r0 (hload st inc.1 inc.2 (some owner) rid1 st1 n0 p0 r0 h0 hl) hl2

/-- A cache binding survives any successful `Role.load`: the load only ever
registers keys that were absent when their load began, so it cannot shadow
an existing binding. -/
theorem roleLoad_stable :
    ∀ (fuel : Nat) (g : RoleGraph) (st : LoadState) (name : Nat)
      (params : List (Nat × Nat)) (parent : Option Nat) (rid : Nat) (st' : LoadState)
      (n0 : Nat) (p0 : List (Nat × Nat)) (r0 : Nat),
      cacheLookup st n0 p0 = some r0 →
      roleLoad g fuel st name params parent = .ok (rid, st') →
      cacheLookup st' n0 p0 = some r0 := by
  intro fuel
  induction fuel with
  | zero => intro g st name params parent rid st' n0 p0 r0 h0 h; simp [roleLoad] at h
  | succ f ih =>
    intro g st name params parent rid st' n0 p0 r0 h0 h
    cases hc : cacheLookup st name params with
    | some rid0 =>
      simp only [roleLoad, hc] at h
      cases parent with
      | some q =>
        simp only [Except.ok.injEq, Prod.mk.injEq] at h
        rw [← h.2]
        exact h0
      | none =>
        simp only [Except.ok.injEq, Prod.mk.injEq] at h
        rw [← h.2]
        exact h0
    | none =>
      simp only [roleLoad, hc] at h
      cases hld : loadDepsWith (roleLoad g f) (allocRole st name params parent) (g name)
          st.store.length with
      | error e => rw [hld] at h; cases e <;> simp at h
      | ok v =>
        obtain ⟨depIds, st2⟩ := v
        rw [hld] at h
        simp only [Except.ok.injEq, Prod.mk.injEq] at h
        rw [← h.2]
        have h2 : cacheLookup st2 n0 p0 = some r0 :=
          loadDepsWith_stable (roleLoad g f)
            (fun s n p par r s' m0 q0 s0 hh1 hh2 => ih g s n p par r s' m0 q0 s0 hh1 hh2)
            (g name) (allocRole st name params parent) st.store.length depIds st2 n0 p0 r0
            h0 hld
        by_cases hkey : name = n0 ∧ params = p0
        · rw [hkey.1, hkey.2] at hc
          rw [hc] at h0
          cases h0
        · show cacheFind ((name, params, st.store.length) :: st2.cache) n0 p0 = some r0
          rw [cacheFind, if_neg hkey]
          exact h2

/-- A cache hit returns the cached role after recording the parent edge. -/
theorem roleLoad_cache_hit (g : RoleGraph) (fuel : Nat) (st : LoadState) (name : Nat)
    (params : List (Nat × Nat)) (q rid : Nat) (h : cacheLookup st name params = some rid) :
    roleLoad g (fuel + 1) st name params (some q) = .ok (rid, addParent st rid q) := by
  simp only [roleLoad, h]

/-- A cache miss constructs the next arena object: the returned id is the
pre-call arena size, the arena strictly grows, and every cache entry of the
final state is an old entry, the new registration, or points past the
pre-call arena. -/
theorem roleLoad_miss_entries (g : RoleGraph) (f : Nat) (st : LoadState) (name : Nat)
    (params : List (Nat × Nat)) (parent : Option Nat) (rid : Nat) (st' : LoadState)
    (hc : cacheLookup st name params = none)
    (h : roleLoad g (f + 1) st name params parent = .ok (rid, st')) :
    rid = st.store.length ∧ st.store.length + 1 ≤ st'.store.length ∧
    ∀ e ∈ st'.cache, e ∈ st.cache ∨ e = (name, params, rid) ∨
      st.store.length + 1 ≤ e.2.2 := by
  simp only [roleLoad, hc] at h
  cases hld : loadDepsWith (roleLoad g f) (allocRole st name params parent) (g name)
      st.store.length with
  | error e => rw [hld] at h; cases e <;> simp at h
  | ok v =>
    obtain ⟨depIds, st2⟩ := v
    rw [hld] at h
    simp only [Except.ok.injEq, Prod.mk.injEq] at h
    have A := loadDepsWith_weak (roleLoad g f)
      (fun s n p par r s' hh => roleLoad_weak f g s n p par r s' hh)
      (g name) (allocRole st name params parent) st.store.length depIds st2 hld
    rw [allocRole_store_length] at A
    refine ⟨h.1.symm, ?_, ?_⟩
    · rw [← h.2]
      have : (registerRole (setRoleDeps st2 st.store.length depIds)
          name params st.store.length).store.length = st2.store.length := by
        simp [registerRole, setRoleDeps_store_length]
      omega
    · intro e he
      rw [← h.2] at he
      simp only [registerRole, setRoleDeps] at he
      rcases List.mem_cons.mp he with h1 | h1
      · subst h1
        exact Or.inr (Or.inl (by rw [← h.1]))
      · rcases A.2 e h1 with h2 | h2
        · exact Or.inl h2
        · exact Or.inr (Or.inr h2)

/-- C7: the role cache deduplicates by name and parameter set.  A load of a
name and parameter set already in the cache returns the cached role object
after recording the new parent edge, constructing nothing; hence a second
load with the same name and identical parameters returns the very object
the first load produced.  Two loads of the same name with different
parameter sets return two distinct role objects, both of which are
registered in the cache afterwards. -/
theorem c7_role_cache :
    (∀ (g : RoleGraph) (fuel : Nat) (st : LoadState) (name : Nat)
        (params : List (Nat × Nat)) (q rid : Nat),
        cacheLookup st name params = some rid →
        roleLoad g (fuel + 1) st name params (some q) = .ok (rid, addParent st rid q) ∧
        (addParent st rid q).store.length = st.store.length) ∧
    (∀ (g : RoleGraph) (fuel1 fuel2 : Nat) (st : LoadState) (name : Nat)
        (params : List (Nat × Nat)) (parent : Option Nat) (q rid : Nat) (st' : LoadState),
        roleLoad g fuel1 st name params parent = .ok (rid, st') →
        roleLoad g (fuel2 + 1) st' name params (some q) = .ok (rid, addParent st' rid q) ∧
        (addParent st' rid q).store.length = st'.store.length) ∧
    (∀ (g : RoleGraph) (fuel1 fuel2 : Nat) (st : LoadState) (name : Nat)
        (params params2 : List (Nat × Nat)) (par1 par2 : Option Nat)
        (r1 : Nat) (s1 : LoadState) (r2 : Nat) (s2 : LoadState),
        params ≠ params2 →
        cacheLookup st name params = none → cacheLookup st name params2 = none →
        roleLoad g fuel1 st name params par1 = .ok (r1, s1) →
        roleLoad g fuel2 s1 name params2 par2 = .ok (r2, s2) →
        r1 ≠ r2 ∧ cacheLookup s2 name params = some r1 ∧
        cacheLookup s2 name params2 = some r2) := by
  refine ⟨?_, ?_, ?_⟩
  · intro g fuel st name params q rid h
    exact ⟨roleLoad_cache_hit g fuel st name params q rid h, addParent_store_length st rid q⟩
  · intro g fuel1 fuel2 st name params parent q rid st' h
    have hreg := roleLoad_registers fuel1 g st name params parent rid st' h
    exact ⟨roleLoad_cache_hit g fuel2 st' name params q rid hreg,
      addParent_store_length st' rid q⟩
  · intro g fuel1 fuel2 st name params params2 par1 par2 r1 s1 r2 s2 hne hm1 hm2 h1 h2
    cases fuel1 with
    | zero => simp [roleLoad] at h1
    | succ f1 =>
      obtain ⟨hr1, hgrow, hentries⟩ := roleLoad_miss_entries g f1 st name params par1 r1 s1 hm1 h1
      have hreg1 : cacheLookup s1 name params = some r1 :=
        roleLoad_registers (f1 + 1) g st name params par1 r1 s1 h1
      have hreg2 : cacheLookup s2 name params2 = some r2 :=
        roleLoad_registers fuel2 g s1 name params2 par2 r2 s2 h2
      have hstab : cacheLookup s2 name params = some r1 :=
        roleLoad_stable fuel2 g s1 name params2 par2 r2 s2 name params r1 hreg1 h2
      refine ⟨?_, hstab, hreg2⟩
      cases hc2 : cacheLookup s1 name params2 with
      | some r2' =>
        cases fuel2 with
        | zero => simp [roleLoad] at h2
        | succ f2 =>
          have hmem : (name, params2, r2') ∈ s1.cache := cacheFind_some_mem s1.cache name params2 r2' hc2
          have hr2 : r2 = r2' := by
            cases par2 with
            | some q2 =>
              rw [roleLoad_cache_hit g f2 s1 name params2 q2 r2' hc2] at h2
              simp only [Except.ok.injEq, Prod.mk.injEq] at h2
              exact h2.1.symm
            | none =>
              simp only [roleLoad, hc2, Except.ok.injEq, Prod.mk.injEq] at h2
              exact h2.1.symm
          rcases hentries (name, params2, r2') hmem with hh | hh | hh
          · exact absurd (mem_cacheFind_ne_none st.cache name params2 r2' hh)
              (by simp [cacheLookup] at hm2; simp [hm2])
          · exact absurd (by injection hh with _ hrest; injection hrest with hp _; exact hp.symm) hne
          · intro haeq
            simp only at hh
            omega
      | none =>
        cases fuel2 with
        | zero => simp [roleLoad] at h2
        | succ f2 =>
          obtain ⟨hr2, _, _⟩ := roleLoad_miss_entries g f2 s1 name params2 par2 r2 s2 hc2 h2
          subst hr1 hr2
          omega

/-- C7 witness: loading role 5 first with empty parameters and then with
parameters x=1 on an empty state and a dependency-free graph yields the
distinct arena objects 0 and 1, both registered. -/
theorem c7_role_cache_witness :
    (0 : Nat) ≠ 1 ∧
    cacheLookup ⟨[⟨5, [], [], []⟩, ⟨5, [(1, 1)], [], []⟩],
      [(5, [(1, 1)], 1), (5, [], 0)]⟩ 5 [] = some 0 ∧
    cacheLookup ⟨[⟨5, [], [], []⟩, ⟨5, [(1, 1)], [], []⟩],
      [(5, [(1, 1)], 1), (5, [], 0)]⟩ 5 [(1, 1)] = some 1 :=
  c7_role_cache.2.2 (fun _ => []) 1 1 ⟨[], []⟩ 5 [] [(1, 1)] none none
    0 ⟨[⟨5, [], [], []⟩], [(5, [], 0)]⟩
    1 ⟨[⟨5, [], [], []⟩, ⟨5, [(1, 1)], [], []⟩], [(5, [(1, 1)], 1), (5, [], 0)]⟩
    (by decide) rfl rfl rfl rfl

end Ansible
